import Mathlib

/-!
Shallow embedding of the detection post-processing pipeline in
maskrcnn_benchmark/modeling/roi_heads/box_head/inference.py (class PostProcessor),
together with proofs about its behaviour.

Coordinates and scores are modelled as rationals.  Collaborators of the file that
are not part of it (the greedy NMS of boxlist_ops, BoxList.clip_to_image, the
softmax of the scoring network and the injected BoxCoder) are either modelled
from the specification or taken as function parameters, mirroring the way the
source receives them (softmax is a library call whose exact values never matter
to the properties below; the box coder is injected through the constructor).
-/

/-- An axis-aligned box in xyxy format with rational coordinates. -/
structure Box where
  x1 : ℚ
  y1 : ℚ
  x2 : ℚ
  y2 : ℚ
deriving DecidableEq, Repr

/-- Default box used for out-of-range indexing (never hit on well-shaped input). -/
def dummyBox : Box := ⟨0, 0, 0, 0⟩

/-- Modelled from the spec: area of an axis-aligned box, zero for a degenerate
(inverted or empty) box.  Used only by the IoU of the greedy NMS, whose code
(maskrcnn_benchmark.structures.boxlist_ops.boxlist_nms) is not under src. -/
def Box.area (b : Box) : ℚ := max 0 (b.x2 - b.x1) * max 0 (b.y2 - b.y1)

/-- Modelled from the spec: intersection area of two axis-aligned boxes. -/
def interArea (a b : Box) : ℚ :=
  max 0 (min a.x2 b.x2 - max a.x1 b.x1) * max 0 (min a.y2 b.y2 - max a.y1 b.y1)

/-- Modelled from the spec: intersection-over-union of two axis-aligned boxes;
zero-area boxes yield IoU 0 with anything, including themselves. -/
def iou (a b : Box) : ℚ :=
  if a.area + b.area - interArea a b ≤ 0 then 0
  else interArea a b / (a.area + b.area - interArea a b)

/-- An NMS candidate: original proposal index, decoded box, class score. -/
structure Cand where
  idx : ℕ
  box : Box
  score : ℚ
deriving DecidableEq, Repr

/-- Ordering of NMS candidates: score descending, ties by original index
ascending (the stable tie-break of the sort used by the NMS kernel). -/
def candBefore (a b : Cand) : Prop :=
  b.score < a.score ∨ (a.score = b.score ∧ a.idx ≤ b.idx)

instance : DecidableRel candBefore := fun a b => by
  unfold candBefore
  infer_instance

/-- Sort candidates by descending score (ties by index). -/
def sortCands (l : List Cand) : List Cand := List.insertionSort candBefore l

/-- Modelled from the spec: one round of greedy NMS per fuel unit.  The fuel is
an upper bound on the number of rounds; each round pops the current best
candidate, keeps it, and drops every remaining candidate whose IoU with it
exceeds the threshold. -/
def nmsKeepGo (thresh : ℚ) : ℕ → List Cand → List Cand
  | 0, _ => []
  | _ + 1, [] => []
  | fuel + 1, c :: rest =>
      c :: nmsKeepGo thresh fuel (rest.filter (fun k => decide (iou c.box k.box ≤ thresh)))

/-- Modelled from the spec: greedy NMS (boxlist_ops.boxlist_nms is not under
src).  Sort by descending score with stable tie-break, then greedily keep the
best candidate and remove every remaining candidate with IoU above the
threshold.  The candidate count is a sufficient fuel bound because every round
consumes at least the popped candidate. -/
def boxlist_nms (thresh : ℚ) (cands : List Cand) : List Cand :=
  nmsKeepGo thresh (sortCands cands).length (sortCands cands)

/-- A final detection: box, score and integer class label. -/
structure Detection where
  box : Box
  score : ℚ
  label : ℕ
deriving DecidableEq, Repr

/-- The k-th smallest element of a list of scores (1-based), the semantics of
the torch.kthvalue call in filter_results. -/
def kthvalue (l : List ℚ) (k : ℕ) : ℚ :=
  (List.insertionSort (· ≤ ·) l).getD (k - 1) 0

/-- The k-th largest element of a list of scores (1-based). -/
def kthLargest (l : List ℚ) (k : ℕ) : ℚ :=
  (List.insertionSort (· ≥ ·) l).getD (k - 1) 0

/-- The cap stage at the end of PostProcessor.filter_results: when the number
of detections exceeds a positive detections_per_img, compute the
(n - cap + 1)-th smallest score and keep the detections scoring at least that
cutoff, in their original order. -/
def capDetections (detections_per_img : ℤ) (dets : List Detection) : List Detection :=
  if detections_per_img < (dets.length : ℤ) ∧ 0 < detections_per_img then
    dets.filter (fun d =>
      decide (kthvalue (dets.map (fun x => x.score))
        (dets.length - detections_per_img.toNat + 1) ≤ d.score))
  else dets

/-- The configuration stored by PostProcessor.__init__. -/
structure PostProcessor where
  score_thresh : ℚ
  nms : ℚ
  detections_per_img : ℤ
  cls_agnostic_bbox_reg : Bool
  bbox_aug_enabled : Bool
deriving DecidableEq, Repr

/-- PostProcessor.__init__: stores every argument unchanged; the source
performs no validation of any kind. -/
def PostProcessor.init (score_thresh : ℚ) (nms : ℚ) (detections_per_img : ℤ)
    (cls_agnostic_bbox_reg : Bool) (bbox_aug_enabled : Bool) : PostProcessor :=
  ⟨score_thresh, nms, detections_per_img, cls_agnostic_bbox_reg, bbox_aug_enabled⟩

/-- Row-major flattening, the reshape(-1, 4) / reshape(-1) of prepare_boxlist. -/
def flattenRows {α : Type} (rows : List (List α)) : List α := rows.flatten

/-- Row-major two-dimensional access into a flat list with row width C, the
reshape(-1, num_classes * 4) / reshape(-1, num_classes) view of filter_results. -/
def reshapeAt {α : Type} (C : ℕ) (flat : List α) (d : α) (i j : ℕ) : α :=
  flat.getD (i * C + j) d

/-- The class-j candidate construction of filter_results: indices of proposals
whose class-j score strictly exceeds score_thresh, each paired with its class-j
box and class-j score. -/
def classCandidates (score_thresh : ℚ) (flatBoxes : List Box) (flatScores : List ℚ)
    (num_classes j : ℕ) : List Cand :=
  ((List.range (flatScores.length / num_classes)).filter
      (fun i => decide (score_thresh < reshapeAt num_classes flatScores 0 i j))).map
    (fun i => Cand.mk i (reshapeAt num_classes flatBoxes dummyBox i j)
      (reshapeAt num_classes flatScores 0 i j))

/-- The per-class body of the loop in filter_results: threshold, NMS, then tag
every survivor with the class label j. -/
def classDetections (self : PostProcessor) (flatBoxes : List Box) (flatScores : List ℚ)
    (num_classes j : ℕ) : List Detection :=
  (boxlist_nms self.nms
      (classCandidates self.score_thresh flatBoxes flatScores num_classes j)).map
    (fun c => Detection.mk c.box c.score j)

/-- PostProcessor.filter_results: run the per-class loop for j = 1 .. C-1
(class 0 is background and skipped), concatenate the per-class survivors, and
apply the detections_per_img cap. -/
def filter_results (self : PostProcessor) (flatBoxes : List Box) (flatScores : List ℚ)
    (num_classes : ℕ) : List Detection :=
  capDetections self.detections_per_img
    (((List.range' 1 (num_classes - 1)).map
        (fun j => classDetections self flatBoxes flatScores num_classes j)).flatten)

/-- A BoxList as used on the per-image path of forward: aligned boxes, scores
and (after filter_results) labels; an absent extra field is the empty list. -/
structure BoxListQ where
  bbox : List Box
  size : ℚ × ℚ
  scores : List ℚ
  labels : List ℕ
deriving DecidableEq, Repr

/-- Default BoxListQ for out-of-range indexing. -/
def defaultBoxList : BoxListQ := ⟨[], (0, 0), [], []⟩

/-- PostProcessor.prepare_boxlist: flatten the (N, C) grid of class boxes and
scores row-major into a single BoxList of N * C aligned entries. -/
def prepare_boxlist (boxRows : List (List Box)) (scoreRows : List (List ℚ))
    (image_shape : ℚ × ℚ) : BoxListQ :=
  ⟨flattenRows boxRows, image_shape, flattenRows scoreRows, []⟩

/-- Clamp v into the closed interval [lo, hi]. -/
def clampQ (lo hi v : ℚ) : ℚ := max lo (min v hi)

/-- Modelled from the spec: clamp every coordinate of a box to the image
bounds [0, width - 1] and [0, height - 1] (BoxList.clip_to_image is not under
src). -/
def clampBox (size : ℚ × ℚ) (b : Box) : Box :=
  ⟨clampQ 0 (size.1 - 1) b.x1, clampQ 0 (size.2 - 1) b.y1,
    clampQ 0 (size.1 - 1) b.x2, clampQ 0 (size.2 - 1) b.y2⟩

/-- Modelled from the spec: BoxList.clip_to_image with remove_empty = False,
as called by forward: clamp every box, keep every entry (boxes that become
degenerate included) and leave all aligned fields untouched. -/
def clip_to_image (bl : BoxListQ) : BoxListQ :=
  ⟨bl.bbox.map (clampBox bl.size), bl.size, bl.scores, bl.labels⟩

/-- Repackage the detections returned by filter_results as a BoxList with
aligned scores and labels fields. -/
def detectionsToBoxList (size : ℚ × ℚ) (dets : List Detection) : BoxListQ :=
  ⟨dets.map (fun d => d.box), size, dets.map (fun d => d.score),
    dets.map (fun d => d.label)⟩

/-- The per-image body of the loop in forward: build the BoxList, clip it to
the image, and (unless bbox augmentation defers filtering) run filter_results. -/
def processOneImage (self : PostProcessor) (num_classes : ℕ) (final_iter : Bool)
    (prob : List (List ℚ)) (boxRows : List (List Box)) (image_shape : ℚ × ℚ) : BoxListQ :=
  if !self.bbox_aug_enabled && final_iter then
    detectionsToBoxList image_shape
      (filter_results self (clip_to_image (prepare_boxlist boxRows prob image_shape)).bbox
        (clip_to_image (prepare_boxlist boxRows prob image_shape)).scores num_classes)
  else clip_to_image (prepare_boxlist boxRows prob image_shape)

/-- The [:, -4:] slice of a regression row (class-agnostic branch of forward). -/
def lastFour (r : List ℚ) : List ℚ := r.drop (r.length - 4)

/-- Split a flat row into consecutive chunks of four values, with fuel. -/
def chunks4Go : ℕ → List ℚ → List (List ℚ)
  | 0, _ => []
  | _ + 1, [] => []
  | fuel + 1, a :: rest => ((a :: rest).take 4) :: chunks4Go fuel ((a :: rest).drop 4)

/-- Split a regression row into its per-class groups of four delta values. -/
def chunks4 (l : List ℚ) : List (List ℚ) := chunks4Go l.length l

/-- The box_coder.decode call of forward: each group of four delta values in a
row is decoded against that row's single reference box.  decode1 is the
per-delta decoder of the BoxCoder injected through the constructor. -/
def decodeRows (decode1 : List ℚ → Box → Box) (regRows : List (List ℚ))
    (refBoxes : List Box) : List (List Box) :=
  List.zipWith (fun r b => (chunks4 r).map (fun d => decode1 d b)) regRows refBoxes

/-- The proposal-decoding step of forward: in class-agnostic mode keep only the
last four regression values of every row, decode once, then tile the single
decoded box across all classes (proposals.repeat(1, num_classes)); otherwise
decode every per-class group of four values. -/
def forwardProposals (self : PostProcessor) (decode1 : List ℚ → Box → Box)
    (box_regression : List (List ℚ)) (concat_boxes : List Box)
    (num_classes : ℕ) : List (List Box) :=
  if self.cls_agnostic_bbox_reg then
    (decodeRows decode1 (box_regression.map lastFour) concat_boxes).map
      (fun row => (List.replicate num_classes row).flatten)
  else decodeRows decode1 box_regression concat_boxes

/-- The tensor.split(boxes_per_image) call of forward: cut a flat list into
consecutive pieces of the given lengths, order preserved. -/
def splitByCounts {α : Type} (counts : List ℕ) (l : List α) : List (List α) :=
  match counts with
  | [] => []
  | c :: cs => l.take c :: splitByCounts cs (l.drop c)

/-- Pointwise map over three lists of equal length (the zip of forward). -/
def map3 {α β γ δ : Type} (f : α → β → γ → δ) : List α → List β → List γ → List δ
  | a :: as, b :: bs, c :: cs => f a b c :: map3 f as bs cs
  | _, _, _ => []

/-- A per-image reference BoxList fed into forward: proposal boxes plus the
image size. -/
structure RefBoxList where
  bbox : List Box
  size : ℚ × ℚ
deriving DecidableEq, Repr

/-- Default reference BoxList for out-of-range indexing. -/
def defaultRef : RefBoxList := ⟨[], (0, 0)⟩

/-- num_classes as computed by forward: the width of the softmax output
(class_prob.shape[1]). -/
def forwardNumClasses (softmaxRow : List ℚ → List ℚ) (class_logits : List (List ℚ)) : ℕ :=
  ((class_logits.map softmaxRow).headD []).length

/-- PostProcessor.forward: softmax the logits, decode all regression rows
against the concatenated reference boxes, split both back into per-image
slices by proposal count, and process every image in input order.  softmaxRow
is the row-wise softmax library call; decode1 the injected box coder. -/
def forwardPost (self : PostProcessor) (softmaxRow : List ℚ → List ℚ)
    (decode1 : List ℚ → Box → Box) (class_logits : List (List ℚ))
    (box_regression : List (List ℚ)) (boxes : List RefBoxList)
    (final_iter : Bool) : List BoxListQ :=
  map3 (processOneImage self (forwardNumClasses softmaxRow class_logits) final_iter)
    (splitByCounts (boxes.map (fun b => b.bbox.length)) (class_logits.map softmaxRow))
    (splitByCounts (boxes.map (fun b => b.bbox.length))
      (forwardProposals self decode1 box_regression
        ((boxes.map (fun b => b.bbox)).flatten)
        (forwardNumClasses softmaxRow class_logits)))
    (boxes.map (fun b => b.size))

/-- The computation forward performs for the image at position i, written
directly against image i's own slice of the batch: drop the proposals of the
earlier images, take this image's own, and process them. -/
def forwardImageAt (self : PostProcessor) (softmaxRow : List ℚ → List ℚ)
    (decode1 : List ℚ → Box → Box) (class_logits : List (List ℚ))
    (box_regression : List (List ℚ)) (boxes : List RefBoxList)
    (final_iter : Bool) (i : ℕ) : BoxListQ :=
  processOneImage self (forwardNumClasses softmaxRow class_logits) final_iter
    (((class_logits.map softmaxRow).drop
        (((boxes.map (fun b => b.bbox.length)).take i).sum)).take
      ((boxes.getD i defaultRef).bbox.length))
    (((forwardProposals self decode1 box_regression
          ((boxes.map (fun b => b.bbox)).flatten)
          (forwardNumClasses softmaxRow class_logits)).drop
        (((boxes.map (fun b => b.bbox.length)).take i).sum)).take
      ((boxes.getD i defaultRef).bbox.length))
    ((boxes.getD i defaultRef).size)

/-! ## Helper lemmas -/

theorem nmsKeepGo_subset (t : ℚ) : ∀ (fuel : ℕ) (l : List Cand), nmsKeepGo t fuel l ⊆ l := by
  intro fuel
  induction fuel with
  | zero => intro l x hx; simp [nmsKeepGo] at hx
  | succ n ih =>
    intro l
    cases l with
    | nil => intro x hx; simp [nmsKeepGo] at hx
    | cons c rest =>
      intro x hx
      simp only [nmsKeepGo, List.mem_cons] at hx
      rcases hx with h | h
      · exact h ▸ List.mem_cons_self c rest
      · exact List.mem_cons_of_mem c ((List.filter_sublist rest).subset (ih _ h))

theorem nmsKeepGo_pairwise (t : ℚ) : ∀ (fuel : ℕ) (l : List Cand),
    (nmsKeepGo t fuel l).Pairwise (fun a b => iou a.box b.box ≤ t) := by
  intro fuel
  induction fuel with
  | zero => intro l; simp [nmsKeepGo]
  | succ n ih =>
    intro l
    cases l with
    | nil => simp [nmsKeepGo]
    | cons c rest =>
      simp only [nmsKeepGo]
      refine List.Pairwise.cons (fun b hb => ?_) (ih _)
      have hbf : b ∈ rest.filter (fun k => decide (iou c.box k.box ≤ t)) :=
        nmsKeepGo_subset t n _ hb
      rw [List.mem_filter] at hbf
      exact of_decide_eq_true hbf.2

theorem boxlist_nms_pairwise (t : ℚ) (cands : List Cand) :
    (boxlist_nms t cands).Pairwise (fun a b => iou a.box b.box ≤ t) :=
  nmsKeepGo_pairwise t _ _

theorem capDetections_sublist (cap : ℤ) (dets : List Detection) :
    (capDetections cap dets).Sublist dets := by
  unfold capDetections
  split
  · exact List.filter_sublist dets
  · exact List.Sublist.refl dets

theorem classDetections_label (self : PostProcessor) (fb : List Box) (fs : List ℚ)
    (C j : ℕ) (d : Detection) (hd : d ∈ classDetections self fb fs C j) : d.label = j := by
  unfold classDetections at hd
  rw [List.mem_map] at hd
  obtain ⟨c, _, rfl⟩ := hd
  rfl

/-! ## Claims -/

/-- Claim C2: in the detection list returned by filter_results, no two kept
detections of the same class have IoU greater than the nms threshold. -/
theorem c2_same_class_iou_bounded (self : PostProcessor) (flatBoxes : List Box)
    (flatScores : List ℚ) (num_classes : ℕ) :
    (filter_results self flatBoxes flatScores num_classes).Pairwise
      (fun d1 d2 => d1.label = d2.label → iou d1.box d2.box ≤ self.nms) := by
  unfold filter_results
  refine List.Pairwise.sublist (capDetections_sublist _ _) ?_
  rw [List.pairwise_flatten]
  constructor
  · intro L hL
    rw [List.mem_map] at hL
    obtain ⟨j, hj, rfl⟩ := hL
    unfold classDetections
    rw [List.pairwise_map]
    refine (boxlist_nms_pairwise self.nms _).imp ?_
    intro a b h _
    exact h
  · rw [List.pairwise_map]
    refine (List.pairwise_lt_range' 1 (num_classes - 1)).imp ?_
    intro j1 j2 hlt x hx y hy hxy
    have h1 := classDetections_label self flatBoxes flatScores num_classes j1 x hx
    have h2 := classDetections_label self flatBoxes flatScores num_classes j2 y hy
    omega

/-- Claim C3: every detection returned by filter_results carries an integer
label in [1, num_classes - 1]; in particular the background label 0 is never
emitted. -/
theorem c3_labels_in_range (self : PostProcessor) (flatBoxes : List Box)
    (flatScores : List ℚ) (num_classes : ℕ) (d : Detection)
    (hd : d ∈ filter_results self flatBoxes flatScores num_classes) :
    1 ≤ d.label ∧ d.label ≤ num_classes - 1 := by
  unfold filter_results at hd
  have hd2 := (capDetections_sublist _ _).subset hd
  rw [List.mem_flatten] at hd2
  obtain ⟨L, hL, hdL⟩ := hd2
  rw [List.mem_map] at hL
  obtain ⟨j, hj, rfl⟩ := hL
  have hlabel := classDetections_label self flatBoxes flatScores num_classes j d hdL
  rw [List.mem_range'] at hj
  obtain ⟨i, hi, rfl⟩ := hj
  omega

/-- Claim C6: a non-positive detections_per_img disables the cap entirely:
capDetections returns its input unchanged. -/
theorem c6_cap_disabled_noop (cap : ℤ) (dets : List Detection) (h : cap ≤ 0) :
    capDetections cap dets = dets := by
  unfold capDetections
  rw [if_neg]
  rintro ⟨-, h2⟩
  omega

/-- Concrete instantiation of c6_cap_disabled_noop at cap = 0. -/
theorem c6_witness :
    (0 : ℤ) ≤ 0 ∧ capDetections 0 [Detection.mk ⟨0, 0, 1, 1⟩ 1 1] = [Detection.mk ⟨0, 0, 1, 1⟩ 1 1] :=
  ⟨le_refl 0, c6_cap_disabled_noop 0 [Detection.mk ⟨0, 0, 1, 1⟩ 1 1] (le_refl 0)⟩

/-- Claim C7 counterexample: constructing the post-processor with the negative
score_thresh -1 succeeds and stores -1; no validation or InvalidConfiguration
error exists at construction time. -/
theorem c7_counterexample_negative_thresh_accepted :
    (PostProcessor.init (-1) (1/2) 100 false false).score_thresh < 0 := by
  norm_num [PostProcessor.init]

/-- Claim C7 (amended): __init__ performs no validation; every argument,
score_thresh included (even values outside [0, 1]), is accepted and stored
unchanged. -/
theorem c7_init_stores_unvalidated (s n : ℚ) (d : ℤ) (ca ba : Bool) :
    (PostProcessor.init s n d ca ba).score_thresh = s ∧
    (PostProcessor.init s n d ca ba).nms = n ∧
    (PostProcessor.init s n d ca ba).detections_per_img = d :=
  ⟨rfl, rfl, rfl⟩

/-- Demo inputs: one proposal, two classes; class-1 score 1 exceeds the
threshold 0. -/
def c3scores : List ℚ := [0, 1]

/-- Demo class boxes aligned with c3scores. -/
def c3boxes : List Box := [⟨0, 0, 1, 1⟩, ⟨0, 0, 2, 2⟩]

/-- Demo configuration: thresholds 0 and 1, cap 100, no special modes. -/
def c3cfg : PostProcessor := PostProcessor.init 0 1 100 false false

/-- Concrete instantiation of c3_labels_in_range on a detection actually
produced by filter_results. -/
theorem c3_witness :
    Detection.mk ⟨0, 0, 2, 2⟩ 1 1 ∈ filter_results c3cfg c3boxes c3scores 2 ∧
    (1 ≤ (Detection.mk ⟨0, 0, 2, 2⟩ 1 1).label ∧
      (Detection.mk ⟨0, 0, 2, 2⟩ 1 1).label ≤ 2 - 1) :=
  ⟨by decide, c3_labels_in_range c3cfg c3boxes c3scores 2 (Detection.mk ⟨0, 0, 2, 2⟩ 1 1) (by decide)⟩

theorem sortDesc_eq_reverse_sortAsc (l : List ℚ) :
    List.insertionSort (· ≥ ·) l = (List.insertionSort (· ≤ ·) l).reverse := by
  apply List.eq_of_perm_of_sorted (r := ((· ≥ ·) : ℚ → ℚ → Prop))
  · exact ((List.perm_insertionSort _ l).trans (List.perm_insertionSort (· ≤ ·) l).symm).trans
      (List.reverse_perm _).symm
  · exact List.sorted_insertionSort (· ≥ ·) l
  · exact List.pairwise_reverse.mpr ((List.sorted_insertionSort (· ≤ ·) l).imp (fun h => h))

theorem kthvalue_eq_kthLargest (l : List ℚ) (k : ℕ) (h1 : 1 ≤ k) (h2 : k ≤ l.length) :
    kthvalue l (l.length - k + 1) = kthLargest l k := by
  unfold kthvalue kthLargest
  rw [sortDesc_eq_reverse_sortAsc]
  have hlen : (List.insertionSort (· ≤ ·) l).length = l.length :=
    List.length_insertionSort _ l
  rw [List.getD_eq_getElem?_getD, List.getD_eq_getElem?_getD,
    List.getElem?_reverse (by rw [hlen]; omega)]
  congr 2
  rw [hlen]
  omega

/-- Claim C1: when the number of merged survivors exceeds a positive cap, the
capper keeps exactly the detections whose score is at least the
(n - cap + 1)-th smallest survivor score, and that cutoff is the cap-th
largest survivor score (so ties at the cutoff can keep more than cap
detections). -/
theorem c1_cap_keeps_scores_at_least_kth (cap : ℤ) (dets : List Detection)
    (hpos : 0 < cap) (hover : cap < (dets.length : ℤ)) :
    capDetections cap dets =
      dets.filter (fun d =>
        decide (kthvalue (dets.map (fun x => x.score))
          (dets.length - cap.toNat + 1) ≤ d.score)) ∧
    kthvalue (dets.map (fun x => x.score)) (dets.length - cap.toNat + 1) =
      kthLargest (dets.map (fun x => x.score)) cap.toNat := by
  constructor
  · unfold capDetections
    rw [if_pos ⟨hover, hpos⟩]
  · have hl : dets.length - cap.toNat + 1 =
        (dets.map (fun x => x.score)).length - cap.toNat + 1 := by
      rw [List.length_map]
    rw [hl]
    exact kthvalue_eq_kthLargest _ _ (by omega) (by rw [List.length_map]; omega)

/-- Demo survivors for the capper: scores 1, 2, 2, 3 with a tie at the cutoff
score 2 when cap = 2, so three detections survive the cap. -/
def c1demo : List Detection :=
  [⟨⟨0, 0, 1, 1⟩, 1, 1⟩, ⟨⟨0, 0, 2, 2⟩, 2, 1⟩, ⟨⟨0, 0, 3, 3⟩, 2, 2⟩, ⟨⟨0, 0, 4, 4⟩, 3, 2⟩]

/-- Concrete instantiation of c1_cap_keeps_scores_at_least_kth at cap = 2 on
c1demo; the tie at the cutoff keeps 3 > 2 detections (documented
over-admission). -/
theorem c1_witness :
    (0 : ℤ) < 2 ∧ (2 : ℤ) < (c1demo.length : ℤ) ∧
    (capDetections 2 c1demo =
        c1demo.filter (fun d =>
          decide (kthvalue (c1demo.map (fun x => x.score))
            (c1demo.length - (2 : ℤ).toNat + 1) ≤ d.score)) ∧
      kthvalue (c1demo.map (fun x => x.score)) (c1demo.length - (2 : ℤ).toNat + 1) =
        kthLargest (c1demo.map (fun x => x.score)) (2 : ℤ).toNat) ∧
    (capDetections 2 c1demo).length = 3 :=
  ⟨by decide, by decide, c1_cap_keeps_scores_at_least_kth 2 c1demo (by decide) (by decide),
    by decide⟩

/-- Claim C4: the candidate set handed to NMS for class j consists exactly of
the proposals whose class-j score strictly exceeds score_thresh (equality is
excluded), each carrying its class-j box and class-j score. -/
theorem c4_candidate_set_characterization (st : ℚ) (flatBoxes : List Box)
    (flatScores : List ℚ) (num_classes j : ℕ) :
    (∀ i : ℕ,
      (∃ c ∈ classCandidates st flatBoxes flatScores num_classes j, c.idx = i) ↔
        (i < flatScores.length / num_classes ∧
          st < reshapeAt num_classes flatScores 0 i j)) ∧
    (∀ c ∈ classCandidates st flatBoxes flatScores num_classes j,
      c.box = reshapeAt num_classes flatBoxes dummyBox c.idx j ∧
      c.score = reshapeAt num_classes flatScores 0 c.idx j) := by
  constructor
  · intro i
    constructor
    · rintro ⟨c, hc, rfl⟩
      unfold classCandidates at hc
      simp only [List.mem_map, List.mem_filter, List.mem_range] at hc
      obtain ⟨i2, ⟨hi2, hsc⟩, heq⟩ := hc
      cases heq
      exact ⟨hi2, of_decide_eq_true hsc⟩
    · rintro ⟨hi, hsc⟩
      refine ⟨Cand.mk i (reshapeAt num_classes flatBoxes dummyBox i j)
        (reshapeAt num_classes flatScores 0 i j), ?_, rfl⟩
      unfold classCandidates
      simp only [List.mem_map, List.mem_filter, List.mem_range]
      exact ⟨i, ⟨hi, decide_eq_true hsc⟩, rfl⟩
  · intro c hc
    unfold classCandidates at hc
    simp only [List.mem_map, List.mem_filter, List.mem_range] at hc
    obtain ⟨i2, hi2, heq⟩ := hc
    cases heq
    exact ⟨rfl, rfl⟩

/-- Concrete instantiation of c4_candidate_set_characterization: with
threshold 0, proposal 0 (class-1 score 1 > 0) is in the class-1 candidate
set. -/
theorem c4_witness :
    ((∃ c ∈ classCandidates 0 c3boxes c3scores 2 1, c.idx = 0) ↔
      (0 < c3scores.length / 2 ∧ (0 : ℚ) < reshapeAt 2 c3scores 0 0 1)) ∧
    (∃ c ∈ classCandidates 0 c3boxes c3scores 2 1, c.idx = 0) :=
  ⟨(c4_candidate_set_characterization 0 c3boxes c3scores 2 1).1 0,
    ((c4_candidate_set_characterization 0 c3boxes c3scores 2 1).1 0).mpr (by decide)⟩

theorem flattenRows_getD {α : Type} (C : ℕ) (d : α) :
    ∀ (rows : List (List α)) (i j : ℕ), (∀ r ∈ rows, r.length = C) →
      i < rows.length → j < C →
      (flattenRows rows).getD (i * C + j) d = (rows.getD i []).getD j d := by
  intro rows
  induction rows with
  | nil => intro i j _ hi _; simp at hi
  | cons r rs ih =>
    intro i j hlen hi hj
    have hr : r.length = C := hlen r (List.mem_cons_self r rs)
    cases i with
    | zero =>
      simp only [Nat.zero_mul, Nat.zero_add, flattenRows, List.flatten_cons, List.getD_cons_zero]
      exact List.getD_append r rs.flatten d j (by omega)
    | succ i =>
      have hmul : (i + 1) * C + j = C + (i * C + j) := by
        rw [Nat.succ_mul]
        omega
      simp only [flattenRows, List.flatten_cons, List.getD_cons_succ]
      rw [hmul, List.getD_append_right r rs.flatten d (C + (i * C + j)) (by omega)]
      have : C + (i * C + j) - r.length = i * C + j := by omega
      rw [this]
      exact ih i j (fun x hx => hlen x (List.mem_cons_of_mem r hx)) (by simpa using hi) hj

/-- Claim C10: prepare_boxlist flattens the (N, C) per-proposal grids
row-major, and the reshape view used by filter_results recovers exactly the
original per-proposal, per-class entry: position i * C + j holds proposal i's
class-j box and class-j score. -/
theorem c10_flatten_reshape_roundtrip (boxRows : List (List Box))
    (scoreRows : List (List ℚ)) (image_shape : ℚ × ℚ) (C i j : ℕ)
    (hb : ∀ r ∈ boxRows, r.length = C) (hs : ∀ r ∈ scoreRows, r.length = C)
    (hib : i < boxRows.length) (his : i < scoreRows.length) (hj : j < C) :
    reshapeAt C (prepare_boxlist boxRows scoreRows image_shape).bbox dummyBox i j =
      (boxRows.getD i []).getD j dummyBox ∧
    reshapeAt C (prepare_boxlist boxRows scoreRows image_shape).scores 0 i j =
      (scoreRows.getD i []).getD j 0 :=
  ⟨flattenRows_getD C dummyBox boxRows i j hb hib hj,
    flattenRows_getD C 0 scoreRows i j hs his hj⟩

/-- Demo box grid: two proposals with two classes each. -/
def c10boxRows : List (List Box) :=
  [[⟨0, 0, 1, 1⟩, ⟨0, 0, 2, 2⟩], [⟨0, 0, 3, 3⟩, ⟨0, 0, 4, 4⟩]]

/-- Demo score grid aligned with c10boxRows. -/
def c10scoreRows : List (List ℚ) := [[1, 2], [3, 4]]

/-- Concrete instantiation of c10_flatten_reshape_roundtrip at proposal 1,
class 0. -/
theorem c10_witness :
    (reshapeAt 2 (prepare_boxlist c10boxRows c10scoreRows (10, 10)).bbox dummyBox 1 0 =
        (c10boxRows.getD 1 []).getD 0 dummyBox ∧
      reshapeAt 2 (prepare_boxlist c10boxRows c10scoreRows (10, 10)).scores 0 1 0 =
        (c10scoreRows.getD 1 []).getD 0 0) ∧
    1 < c10boxRows.length :=
  ⟨c10_flatten_reshape_roundtrip c10boxRows c10scoreRows (10, 10) 2 1 0
      (by decide) (by decide) (by decide) (by decide) (by decide),
    by decide⟩

theorem getD_map_of_lt {α β : Type} (f : α → β) (l : List α) (d : α) (d2 : β) (i : ℕ)
    (h : i < l.length) : (l.map f).getD i d2 = f (l.getD i d) := by
  rw [List.getD_eq_getElem _ _ (by simpa using h), List.getD_eq_getElem _ _ h,
    List.getElem_map]

/-- Claim C8: the clipping stage removes nothing: the clipped collection has
the same number of boxes, the scores field is untouched, and the i-th output
box is exactly the clamp of the i-th input box, degenerate results included. -/
theorem c8_clip_removes_nothing (bl : BoxListQ) :
    (clip_to_image bl).bbox.length = bl.bbox.length ∧
    (clip_to_image bl).scores = bl.scores ∧
    ∀ i, i < bl.bbox.length →
      (clip_to_image bl).bbox.getD i dummyBox =
        clampBox bl.size (bl.bbox.getD i dummyBox) := by
  refine ⟨by simp [clip_to_image], rfl, fun i hi => ?_⟩
  exact getD_map_of_lt (clampBox bl.size) bl.bbox dummyBox dummyBox i hi

/-- Demo BoxList: a single box entirely outside the 10 x 10 image, so clipping
makes it degenerate, yet it must be kept. -/
def c8bl : BoxListQ := ⟨[⟨20, 20, 30, 30⟩], (10, 10), [1], []⟩

/-- Concrete instantiation of c8_clip_removes_nothing on a box that becomes
degenerate after clamping. -/
theorem c8_witness :
    0 < c8bl.bbox.length ∧
    (clip_to_image c8bl).bbox.getD 0 dummyBox =
      clampBox c8bl.size (c8bl.bbox.getD 0 dummyBox) :=
  ⟨by decide, (c8_clip_removes_nothing c8bl).2.2 0 (by decide)⟩

theorem lastFour_length (r : List ℚ) (h : 4 ≤ r.length) : (lastFour r).length = 4 := by
  simp only [lastFour, List.length_drop]
  omega

theorem chunks4_len4 (l : List ℚ) (h : l.length = 4) : chunks4 l = [l] := by
  cases l with
  | nil => simp at h
  | cons a rest =>
    simp only [chunks4, h]
    show chunks4Go (3 + 1) (a :: rest) = [a :: rest]
    simp only [chunks4Go]
    rw [List.take_of_length_le (by omega), List.drop_eq_nil_of_le (by omega)]
    rfl

theorem flatten_replicate_single {α : Type} (n : ℕ) (x : α) :
    (List.replicate n [x]).flatten = List.replicate n x := by
  induction n with
  | zero => rfl
  | succ n ih => simp [List.replicate_succ, ih]

/-- Claim C5: with class-agnostic regression configured, forward decodes one
delta per proposal (the last four regression values) against the reference
box once, and the resulting row of class boxes is that single decoded box
repeated for every class label. -/
theorem c5_agnostic_single_decode_broadcast (self : PostProcessor)
    (decode1 : List ℚ → Box → Box) (box_regression : List (List ℚ))
    (concat_boxes : List Box) (num_classes i : ℕ)
    (hA : self.cls_agnostic_bbox_reg = true)
    (hi : i < box_regression.length) (hi2 : i < concat_boxes.length)
    (hr : 4 ≤ (box_regression.getD i []).length) :
    (forwardProposals self decode1 box_regression concat_boxes num_classes).getD i [] =
      List.replicate num_classes
        (decode1 (lastFour (box_regression.getD i []))
          (concat_boxes.getD i dummyBox)) := by
  unfold forwardProposals
  rw [if_pos hA]
  have hzlen : i < (decodeRows decode1 (box_regression.map lastFour) concat_boxes).length := by
    unfold decodeRows
    rw [List.length_zipWith, List.length_map]
    omega
  rw [getD_map_of_lt _ _ [] [] i hzlen]
  have hrow : (decodeRows decode1 (box_regression.map lastFour) concat_boxes).getD i [] =
      [decode1 (lastFour (box_regression.getD i [])) (concat_boxes.getD i dummyBox)] := by
    unfold decodeRows
    rw [List.getD_eq_getElem _ _ (by unfold decodeRows at hzlen; exact hzlen),
      List.getElem_zipWith, List.getElem_map,
      chunks4_len4 _ (lastFour_length _ (by rw [List.getD_eq_getElem _ _ hi] at hr; exact hr))]
    rw [List.getD_eq_getElem _ _ hi, List.getD_eq_getElem _ _ hi2]
    rfl
  rw [hrow, flatten_replicate_single]

/-- Demo configuration with class-agnostic regression enabled. -/
def c5cfg : PostProcessor := PostProcessor.init 0 1 100 true false

/-- Demo regression row: two classes of four values; the agnostic branch must
use only the last four. -/
def c5reg : List (List ℚ) := [[1, 2, 3, 4, 5, 6, 7, 8]]

/-- Demo reference boxes for c5reg. -/
def c5refs : List Box := [⟨0, 0, 10, 10⟩]

/-- A sample injected decoder used by the concrete instantiation. -/
def c5decode (d : List ℚ) (b : Box) : Box :=
  ⟨b.x1 + d.getD 0 0, b.y1 + d.getD 1 0, b.x2 + d.getD 2 0, b.y2 + d.getD 3 0⟩

/-- Concrete instantiation of c5_agnostic_single_decode_broadcast: the single
decoded box is tiled across all three classes. -/
theorem c5_witness :
    c5cfg.cls_agnostic_bbox_reg = true ∧ 4 ≤ (c5reg.getD 0 []).length ∧
    (forwardProposals c5cfg c5decode c5reg c5refs 3).getD 0 [] =
      List.replicate 3 (c5decode (lastFour (c5reg.getD 0 [])) (c5refs.getD 0 dummyBox)) :=
  ⟨rfl, by decide,
    c5_agnostic_single_decode_broadcast c5cfg c5decode c5reg c5refs 3 0 rfl
      (by decide) (by decide) (by decide)⟩

theorem splitByCounts_length {α : Type} : ∀ (counts : List ℕ) (l : List α),
    (splitByCounts counts l).length = counts.length := by
  intro counts
  induction counts with
  | nil => intro l; rfl
  | cons c cs ih => intro l; simp [splitByCounts, ih]

theorem splitByCounts_getD {α : Type} : ∀ (counts : List ℕ) (l : List α) (i : ℕ),
    i < counts.length →
    (splitByCounts counts l).getD i [] =
      (l.drop ((counts.take i).sum)).take (counts.getD i 0) := by
  intro counts
  induction counts with
  | nil => intro l i hi; simp at hi
  | cons c cs ih =>
    intro l i hi
    cases i with
    | zero => simp [splitByCounts]
    | succ i =>
      simp only [splitByCounts, List.getD_cons_succ, List.take_succ_cons, List.sum_cons]
      rw [ih (l.drop c) i (by simpa using hi), List.drop_drop]

theorem map3_length {α β γ δ : Type} (f : α → β → γ → δ) :
    ∀ (as : List α) (bs : List β) (cs : List γ),
      (map3 f as bs cs).length = min as.length (min bs.length cs.length) := by
  intro as
  induction as with
  | nil => intro bs cs; simp [map3]
  | cons a as ih =>
    intro bs cs
    cases bs with
    | nil => simp [map3]
    | cons b bs =>
      cases cs with
      | nil => simp [map3]
      | cons c cs =>
        simp only [map3, List.length_cons, ih]
        omega

theorem map3_getD {α β γ δ : Type} (f : α → β → γ → δ) (da : α) (db : β) (dc : γ)
    (dd : δ) : ∀ (as : List α) (bs : List β) (cs : List γ) (i : ℕ),
      i < as.length → i < bs.length → i < cs.length →
      (map3 f as bs cs).getD i dd = f (as.getD i da) (bs.getD i db) (cs.getD i dc) := by
  intro as
  induction as with
  | nil => intro bs cs i ha hb hc; simp at ha
  | cons a as ih =>
    intro bs cs i ha hb hc
    cases bs with
    | nil => simp at hb
    | cons b bs =>
      cases cs with
      | nil => simp at hc
      | cons c cs =>
        cases i with
        | zero => rfl
        | succ i =>
          simp only [map3, List.getD_cons_succ]
          exact ih bs cs i (by simpa using ha) (by simpa using hb) (by simpa using hc)

theorem classCandidates_nil (st : ℚ) (fb : List Box) (C j : ℕ) :
    classCandidates st fb [] C j = [] := by
  simp [classCandidates, Nat.zero_div]

theorem classDetections_nil (self : PostProcessor) (fb : List Box) (C j : ℕ) :
    classDetections self fb [] C j = [] := by
  simp [classDetections, boxlist_nms, sortCands, classCandidates_nil,
    List.insertionSort, nmsKeepGo]

theorem capDetections_nil (cap : ℤ) : capDetections cap [] = [] := by
  unfold capDetections
  rw [if_neg]
  rintro ⟨h1, h2⟩
  simp at h1
  omega

theorem filter_results_nil (self : PostProcessor) (fb : List Box) (C : ℕ) :
    filter_results self fb [] C = [] := by
  unfold filter_results
  have h : ((List.range' 1 (C - 1)).map
      (fun j => classDetections self fb [] C j)).flatten = [] := by
    rw [List.flatten_eq_nil_iff]
    intro l hl
    rw [List.mem_map] at hl
    obtain ⟨j, _, rfl⟩ := hl
    exact classDetections_nil self fb C j
  rw [h, capDetections_nil]

theorem processOneImage_nil (self : PostProcessor) (C : ℕ) (fi : Bool) (shape : ℚ × ℚ) :
    processOneImage self C fi [] [] shape = ⟨[], shape, [], []⟩ := by
  unfold processOneImage
  split
  · simp [prepare_boxlist, clip_to_image, flattenRows, filter_results_nil, detectionsToBoxList]
  · simp [prepare_boxlist, clip_to_image, flattenRows]

/-- Claim C9: forward returns one result per input image in input order (each
image's output computed from that image's own slice of the batch), and an
image with zero proposals yields an empty detection list, with no error. -/
theorem c9_zero_proposal_image (self : PostProcessor) (softmaxRow : List ℚ → List ℚ)
    (decode1 : List ℚ → Box → Box) (class_logits : List (List ℚ))
    (box_regression : List (List ℚ)) (boxes : List RefBoxList) (final_iter : Bool)
    (k : ℕ) (hk : k < boxes.length)
    (hempty : (boxes.getD k defaultRef).bbox = []) :
    (forwardPost self softmaxRow decode1 class_logits box_regression boxes
        final_iter).length = boxes.length ∧
    (∀ i, i < boxes.length →
      (forwardPost self softmaxRow decode1 class_logits box_regression boxes
          final_iter).getD i defaultBoxList =
        forwardImageAt self softmaxRow decode1 class_logits box_regression boxes
          final_iter i) ∧
    ((forwardPost self softmaxRow decode1 class_logits box_regression boxes
        final_iter).getD k defaultBoxList).bbox = [] ∧
    ((forwardPost self softmaxRow decode1 class_logits box_regression boxes
        final_iter).getD k defaultBoxList).scores = [] ∧
    ((forwardPost self softmaxRow decode1 class_logits box_regression boxes
        final_iter).getD k defaultBoxList).labels = [] := by
  have hlen : (forwardPost self softmaxRow decode1 class_logits box_regression boxes
      final_iter).length = boxes.length := by
    unfold forwardPost
    rw [map3_length, splitByCounts_length, splitByCounts_length]
    simp only [List.length_map]
    omega
  have hidx : ∀ i, i < boxes.length →
      (forwardPost self softmaxRow decode1 class_logits box_regression boxes
          final_iter).getD i defaultBoxList =
        forwardImageAt self softmaxRow decode1 class_logits box_regression boxes
          final_iter i := by
    intro i hi
    unfold forwardPost forwardImageAt
    rw [map3_getD _ [] [] ((0 : ℚ), (0 : ℚ)) defaultBoxList _ _ _ i
      (by rw [splitByCounts_length, List.length_map]; exact hi)
      (by rw [splitByCounts_length, List.length_map]; exact hi)
      (by rw [List.length_map]; exact hi)]
    rw [splitByCounts_getD _ _ i (by rw [List.length_map]; exact hi),
      splitByCounts_getD _ _ i (by rw [List.length_map]; exact hi)]
    rw [getD_map_of_lt (fun b => b.bbox.length) boxes defaultRef 0 i hi,
      getD_map_of_lt (fun b => b.size) boxes defaultRef ((0 : ℚ), (0 : ℚ)) i hi]
  have hk0 : (forwardPost self softmaxRow decode1 class_logits box_regression boxes
      final_iter).getD k defaultBoxList =
      ⟨[], (boxes.getD k defaultRef).size, [], []⟩ := by
    rw [hidx k hk]
    unfold forwardImageAt
    rw [hempty]
    simp only [List.length_nil, List.take_zero]
    exact processOneImage_nil self _ final_iter _
  exact ⟨hlen, hidx, by rw [hk0], by rw [hk0], by rw [hk0]⟩

/-- Demo batch: image 0 has one proposal, image 1 has none. -/
def c9boxes : List RefBoxList := [⟨[⟨0, 0, 5, 5⟩], (10, 10)⟩, ⟨[], (8, 8)⟩]

/-- Demo logits for the single proposal of image 0 (two classes). -/
def c9logits : List (List ℚ) := [[1, 2]]

/-- Demo regression rows for the single proposal of image 0. -/
def c9reg : List (List ℚ) := [[0, 0, 0, 0, 0, 0, 0, 0]]

/-- Demo configuration for the batched forward pass. -/
def c9cfg : PostProcessor := PostProcessor.init 0 1 100 false false

/-- Concrete instantiation of c9_zero_proposal_image on a two-image batch
whose second image has zero proposals. -/
theorem c9_witness :
    1 < c9boxes.length ∧ (c9boxes.getD 1 defaultRef).bbox = [] ∧
    ((forwardPost c9cfg id c5decode c9logits c9reg c9boxes true).length = c9boxes.length ∧
      (∀ i, i < c9boxes.length →
        (forwardPost c9cfg id c5decode c9logits c9reg c9boxes true).getD i defaultBoxList =
          forwardImageAt c9cfg id c5decode c9logits c9reg c9boxes true i) ∧
      ((forwardPost c9cfg id c5decode c9logits c9reg c9boxes true).getD 1
          defaultBoxList).bbox = [] ∧
      ((forwardPost c9cfg id c5decode c9logits c9reg c9boxes true).getD 1
          defaultBoxList).scores = [] ∧
      ((forwardPost c9cfg id c5decode c9logits c9reg c9boxes true).getD 1
          defaultBoxList).labels = []) :=
  ⟨by decide, by decide,
    c9_zero_proposal_image c9cfg id c5decode c9logits c9reg c9boxes true 1
      (by decide) (by decide)⟩
